import Mathlib

/-!
Verification of the sabos integration scripts:
`scripts/apply-sysroot-patches.py` (idempotent text patcher) and
`scripts/check-syscall-numbers.py` (syscall-number consistency checker).

Text is modelled as a list of characters (`Text := List Char`), matching
Python strings as sequences of characters.  Python `content.split("\n")`
is `List.splitOn` on the newline character and `"\n".join` is
`List.intercalate` with a singleton newline; `needle in line` is the
sublist (infix) relation.  File-system effects are made explicit: a write
is recorded as an `Option Text` and the file system handed to the
entry points is an explicit map from paths to contents.
-/

namespace Sabos

/-- A Python string: a sequence of characters. -/
abbrev Text := List Char

/-- The newline character. -/
def nl : Char := Char.ofNat 10

/-- The opening-brace character (U+007B). -/
def lbrace : Char := Char.ofNat 123

/-- The closing-brace character (U+007D). -/
def rbrace : Char := Char.ofNat 125

/-- Python `content.split("\n")`: split on every newline, keeping empty pieces. -/
def splitLines (s : Text) : List Text := s.splitOn nl

/-- Python `"\n".join(lines)`. -/
def joinLines (ls : List Text) : Text := List.intercalate [nl] ls

/-- Outcome of `patch_file`, corresponding to the `[SKIP]`, `[WARN]` and
`[PATCH]` status lines it prints. -/
inductive PatchStatus : Type where
  | SKIP : PatchStatus
  | WARN : PatchStatus
  | PATCH : PatchStatus
deriving DecidableEq, Repr

/-- Result of one `patch_file` call: the printed status together with the
write performed on the file (`none` when the function returned without
writing, `some t` when it overwrote the file with `t`). -/
structure PatchResult : Type where
  status : PatchStatus
  write : Option Text
deriving DecidableEq

/-- Content of the file after a `patch_file` call that read `content`:
unchanged unless a write happened. -/
def PatchResult.post (content : Text) (r : PatchResult) : Text :=
  r.write.getD content

/-- `patch_file` from apply-sysroot-patches.py, with the file content given
explicitly.  Skips when `check_marker` already occurs in the content, warns
without writing when the transform has no effect, otherwise writes the
transformed text back. -/
def patch_file (content : Text) (check_marker : Text) (patch_fn : Text → Text) :
    PatchResult :=
  if check_marker <:+: content then
    ⟨PatchStatus.SKIP, none⟩
  else
    let new_content := patch_fn content
    if new_content = content then
      ⟨PatchStatus.WARN, none⟩
    else
      ⟨PatchStatus.PATCH, some new_content⟩

/-- Loop body of `insert_before_line`: walk the lines with an `inserted`
flag, emitting `insertion` immediately before the first line that contains
`target_line` as a substring. -/
def insertBeforeGo (target_line insertion : Text) :
    List Text → Bool → List Text
  | [], _ => []
  | line :: rest, inserted =>
    if ¬inserted ∧ target_line <:+: line then
      insertion :: line :: insertBeforeGo target_line insertion rest true
    else
      line :: insertBeforeGo target_line insertion rest inserted

/-- `insert_before_line` from apply-sysroot-patches.py. -/
def insert_before_line (content target_line insertion : Text) : Text :=
  joinLines (insertBeforeGo target_line insertion (splitLines content) false)

/-- Loop body of `insert_after_line`: emit `insertion` immediately after the
first line containing `target_line`. -/
def insertAfterGo (target_line insertion : Text) :
    List Text → Bool → List Text
  | [], _ => []
  | line :: rest, inserted =>
    if ¬inserted ∧ target_line <:+: line then
      line :: insertion :: insertAfterGo target_line insertion rest true
    else
      line :: insertAfterGo target_line insertion rest inserted

/-- `insert_after_line` from apply-sysroot-patches.py. -/
def insert_after_line (content target_line insertion : Text) : Text :=
  joinLines (insertAfterGo target_line insertion (splitLines content) false)

/-- Convert a Lean string literal to `Text`. -/
def txt (s : String) : Text := s.toList

/-- `patch_pal_mod`: insert the sabos branch before the fallback arm. -/
def patch_pal_mod (content : Text) : Text :=
  insert_before_line content (txt "    _ => \x7b")
    (txt "    target_os = \"sabos\" => \x7b\n        mod sabos;\n        pub use self::sabos::*;\n    \x7d")

/-- The opening token of the block searched by `patch_alloc_mod`. -/
def cfgSelectTok : Text := txt "cfg_select!"

/-- `line.count brace-open minus line.count brace-close`, as in the scanner. -/
def braceDelta (line : Text) : Int :=
  (line.count lbrace : Int) - (line.count rbrace : Int)

/-- Substring test producing a Bool, as Python `needle in line`. -/
def containsTok (needle line : Text) : Bool := decide (needle <:+: line)

/-- The scanning loop of `patch_alloc_mod`: find the index of the line that
closes the block opened by the first line containing the opening token.
`in_cfg_select` and `depth` carry the loop state; returns `none` when no
line brings the depth to zero or below (the Python `insert_idx = -1`). -/
def allocScanGo : List Text → Nat → Bool → Int → Option Nat
  | [], _, _, _ => none
  | line :: rest, i, in_cfg_select, depth =>
    let enter : Bool := !in_cfg_select && containsTok cfgSelectTok line
    let in2 : Bool := in_cfg_select || enter
    let d0 : Int := if enter then 0 else depth
    if in2 then
      let d1 : Int := d0 + braceDelta line
      if d1 ≤ 0 then some i else allocScanGo rest (i + 1) in2 d1
    else
      allocScanGo rest (i + 1) in2 d0

/-- The three lines `patch_alloc_mod` appends before the closing line. -/
def allocSabosLines : List Text :=
  [txt "    target_os = \"sabos\" => \x7b", txt "        mod sabos;", txt "    \x7d"]

/-- The second loop of `patch_alloc_mod`: copy the lines, emitting the sabos
lines immediately before the line at `insert_idx`. -/
def allocInsertGo (insert_idx : Nat) : List Text → Nat → List Text
  | [], _ => []
  | line :: rest, i =>
    if i = insert_idx then
      allocSabosLines ++ line :: allocInsertGo insert_idx rest (i + 1)
    else
      line :: allocInsertGo insert_idx rest (i + 1)

/-- `patch_alloc_mod`: insert the sabos branch before the closing brace of
the cfg_select block, found by brace-depth scanning. -/
def patch_alloc_mod (content : Text) : Text :=
  let lines := splitLines content
  match allocScanGo lines 0 false 0 with
  | none => content
  | some insert_idx => joinLines (allocInsertGo insert_idx lines 0)

/-- `patch_stdio_mod`: insert the sabos branch before the fallback arm. -/
def patch_stdio_mod (content : Text) : Text :=
  insert_before_line content (txt "    _ => \x7b")
    (txt "    target_os = \"sabos\" => \x7b\n        mod sabos;\n        pub use sabos::*;\n    \x7d")

/-- `patch_thread_local_mod`: add sabos after the vexos entry in the
no_threads group (8-space indent) and in the guard group (12-space indent). -/
def patch_thread_local_mod (content : Text) : Text :=
  let c1 := insert_after_line content
    (txt "        target_os = \"vexos\",") (txt "        target_os = \"sabos\",")
  insert_after_line c1
    (txt "            target_os = \"vexos\",") (txt "            target_os = \"sabos\",")

/-- `patch_env_consts`: insert the sabos os module before the fallback
comment line. -/
def patch_env_consts (content : Text) : Text :=
  insert_before_line content (txt "// The fallback when none of the other gates match.")
    (txt "#[cfg(target_os = \"sabos\")]\npub mod os \x7b\n    pub const FAMILY: &str = \"\";\n    pub const OS: &str = \"sabos\";\n    pub const DLL_PREFIX: &str = \"\";\n    pub const DLL_SUFFIX: &str = \"\";\n    pub const DLL_EXTENSION: &str = \"\";\n    pub const EXE_SUFFIX: &str = \".elf\";\n    pub const EXE_EXTENSION: &str = \"elf\";\n\x7d\n")

/-- `patch_io_error_mod`: add sabos after the zkvm entry. -/
def patch_io_error_mod (content : Text) : Text :=
  insert_after_line content
    (txt "        target_os = \"zkvm\",") (txt "        target_os = \"sabos\",")

/-- `patch_random_mod`: insert the sabos branch before the empty fallback arm. -/
def patch_random_mod (content : Text) : Text :=
  insert_before_line content (txt "    _ => \x7b\x7d")
    (txt "    target_os = \"sabos\" => \x7b\n        mod sabos;\n        pub use sabos::fill_bytes;\n    \x7d")

/-- `patch_fs_mod`: insert the sabos branch before the fallback arm. -/
def patch_fs_mod (content : Text) : Text :=
  insert_before_line content (txt "    _ => \x7b")
    (txt "    target_os = \"sabos\" => \x7b\n        mod sabos;\n        use sabos as imp;\n    \x7d")

/-- `patch_os_mod`: add the sabos module entry after the xous one. -/
def patch_os_mod (content : Text) : Text :=
  insert_after_line content (txt "pub mod xous;")
    (txt "#[cfg(target_os = \"sabos\")]\npub mod sabos;")

/-- The completion marker shared by every descriptor in the table. -/
def sabosMarker : Text := txt "target_os = \"sabos\""

/-- The static patch table of `main`: (relative path, marker, transform). -/
def patches : List (Text × Text × (Text → Text)) :=
  [ (txt "sys/pal/mod.rs", sabosMarker, patch_pal_mod),
    (txt "sys/alloc/mod.rs", sabosMarker, patch_alloc_mod),
    (txt "sys/stdio/mod.rs", sabosMarker, patch_stdio_mod),
    (txt "sys/thread_local/mod.rs", sabosMarker, patch_thread_local_mod),
    (txt "sys/env_consts.rs", sabosMarker, patch_env_consts),
    (txt "sys/io/error/mod.rs", sabosMarker, patch_io_error_mod),
    (txt "sys/random/mod.rs", sabosMarker, patch_random_mod),
    (txt "sys/fs/mod.rs", sabosMarker, patch_fs_mod),
    (txt "os/mod.rs", sabosMarker, patch_os_mod) ]

/-- A file system: a map from paths to file contents (later entries shadow
earlier ones, as writes prepend). -/
abbrev FileSys := List (Text × Text)

/-- Read a file; `none` models a failing `open(path)`. -/
def readFS (fs : FileSys) (path : Text) : Option Text := List.lookup path fs

/-- Overwrite a file. -/
def writeFS (fs : FileSys) (path content : Text) : FileSys := (path, content) :: fs

/-- The path separator. -/
def slash : Char := Char.ofNat 47

/-- `os.path.join` for a relative second component. -/
def pathJoin (a b : Text) : Text :=
  if a = [] then b
  else if a.getLast? = some slash then a ++ b else a ++ slash :: b

/-- The per-descriptor loop of the patch engine entry point `main`.  Reading a missing
file raises an uncaught exception, modelled by `Except.error` carrying the
offending path; otherwise `patch_file` runs and its write (if any) is applied
to the file system, and the loop continues. -/
def runPatches (fs : FileSys) (std_src : Text) :
    List (Text × Text × (Text → Text)) → List PatchStatus →
      Except Text (FileSys × List PatchStatus)
  | [], log => Except.ok (fs, log)
  | (rel, marker, fn) :: rest, log =>
    let path := pathJoin std_src rel
    match readFS fs path with
    | none => Except.error path
    | some content =>
      let r := patch_file content marker fn
      let fs2 := match r.write with
        | none => fs
        | some t => writeFS fs path t
      runPatches fs2 std_src rest (log ++ [r.status])

/-- Overall outcome of the patch engine entry point `main`. -/
inductive ApplyOutcome : Type where
  | usageError : ApplyOutcome
  | uncaught (path : Text) : ApplyOutcome
  | ok (fs : FileSys) (log : List PatchStatus) : ApplyOutcome
deriving DecidableEq

/-- `main` of apply-sysroot-patches.py: usage check on the argument count
(argv includes the program name), then the fixed patch table is applied in
order. -/
def applyMain (argc : Nat) (std_src : Text) (fs : FileSys) : ApplyOutcome :=
  if argc ≠ 2 then ApplyOutcome.usageError
  else
    match runPatches fs std_src patches [] with
    | Except.error p => ApplyOutcome.uncaught p
    | Except.ok (fs2, log) => ApplyOutcome.ok fs2 log

/-! ## check-syscall-numbers.py -/

/-- Python `\w` restricted to ASCII: letters, digits and underscore
(the identifiers scanned are ASCII). -/
def isWordChar (c : Char) : Bool := c.isAlphanum || c = Char.ofNat 95

/-- Python `\s` on ASCII: space, tab, newline, carriage return, vertical
tab, form feed. -/
def isSpaceChar (c : Char) : Bool :=
  c = ' ' || c = Char.ofNat 9 || c = nl || c = Char.ofNat 13 ||
  c = Char.ofNat 11 || c = Char.ofNat 12

/-- Match a literal (first argument) at the start of the text, returning the
remainder on success. -/
def stripLit : Text → Text → Option Text
  | [], s => some s
  | _ :: _, [] => none
  | c :: cs, d :: ds => if c = d then stripLit cs ds else none

/-- Value of a non-empty decimal digit string, as Python `int`. -/
def digitsToNat (ds : Text) : Nat := ds.foldl (fun n c => 10 * n + (c.toNat - 48)) 0

/-- Match `const (SYS_\w+):\s*u64\s*=\s*(\d+)\s*;` (the pattern RE_PAL_CONST)
at the start of the text, returning the captured name (with its SYS_ prefix)
and value.  The pattern is deterministic: each greedy piece is followed by a
character it cannot match, so no backtracking arises. -/
def matchPalConstAt (s : Text) : Option (Text × Nat) :=
  match stripLit (txt "const ") s with
  | none => none
  | some s1 =>
    match stripLit (txt "SYS_") s1 with
    | none => none
    | some s2 =>
      let w := s2.takeWhile isWordChar
      let s3 := s2.dropWhile isWordChar
      if w = [] then none else
      match stripLit (txt ":") s3 with
      | none => none
      | some s4 =>
        match stripLit (txt "u64") (s4.dropWhile isSpaceChar) with
        | none => none
        | some s6 =>
          match stripLit (txt "=") (s6.dropWhile isSpaceChar) with
          | none => none
          | some s8 =>
            let s9 := s8.dropWhile isSpaceChar
            let d := s9.takeWhile Char.isDigit
            let s10 := s9.dropWhile Char.isDigit
            if d = [] then none else
            match stripLit (txt ";") (s10.dropWhile isSpaceChar) with
            | none => none
            | some _ => some (txt "SYS_" ++ w, digitsToNat d)

/-- Match `pub const (SYS_\w+):\s*u64\s*=\s*(\d+)\s*;` (RE_CANONICAL) at the
start of the text. -/
def matchCanonicalAt (s : Text) : Option (Text × Nat) :=
  match stripLit (txt "pub ") s with
  | none => none
  | some s1 => matchPalConstAt s1

/-- Match the inline-asm pattern RE_PAL_ASM at the start of the text,
returning the captured (value, name). -/
def matchPalAsmAt (s : Text) : Option (Nat × Text) :=
  match stripLit (txt "in(\"rax\")") s with
  | none => none
  | some s1 =>
    let sp := s1.takeWhile isSpaceChar
    let s2 := s1.dropWhile isSpaceChar
    if sp = [] then none else
    let d := s2.takeWhile Char.isDigit
    let s3 := s2.dropWhile Char.isDigit
    if d = [] then none else
    match stripLit (txt "u64") s3 with
    | none => none
    | some s4 =>
      match stripLit (txt ",") (s4.dropWhile isSpaceChar) with
      | none => none
      | some s5 =>
        match stripLit (txt "//") (s5.dropWhile isSpaceChar) with
        | none => none
        | some s6 =>
          match stripLit (txt "SYS_") (s6.dropWhile isSpaceChar) with
          | none => none
          | some s7 =>
            let w := s7.takeWhile isWordChar
            if w = [] then none else
            some (digitsToNat d, txt "SYS_" ++ w)

/-- Python `re.search`: try the anchored matcher at every start position,
left to right, returning the first success. -/
def reSearch {α : Type} (m : Text → Option α) : Text → Option α
  | [] => m []
  | c :: rest =>
    match m (c :: rest) with
    | some r => some r
    | none => reSearch m rest

/-- The carriage-return character. -/
def cr : Char := Char.ofNat 13

/-- Line-break characters recognised by Python `str.splitlines`. -/
def isPyLineBreak (c : Char) : Bool :=
  c = nl || c = cr || c = Char.ofNat 11 || c = Char.ofNat 12 ||
  c = Char.ofNat 28 || c = Char.ofNat 29 || c = Char.ofNat 30 ||
  c = Char.ofNat 133 || c = Char.ofNat 8232 || c = Char.ofNat 8233

/-- Worker for `splitlinesPy`; `acc` holds the current line reversed.  A
carriage return followed by a newline counts as a single break; no entry is
produced for a final empty segment. -/
def splitlinesGo : Text → Text → List Text
  | [], acc => if acc = [] then [] else [acc.reverse]
  | [c], acc => if isPyLineBreak c then [acc.reverse] else [(c :: acc).reverse]
  | c :: c2 :: rest, acc =>
    if c = cr then
      if c2 = nl then acc.reverse :: splitlinesGo rest []
      else acc.reverse :: splitlinesGo (c2 :: rest) []
    else if isPyLineBreak c then
      acc.reverse :: splitlinesGo (c2 :: rest) []
    else
      splitlinesGo (c2 :: rest) (c :: acc)

/-- Python `str.splitlines()`. -/
def splitlinesPy (s : Text) : List Text := splitlinesGo s []

/-- The canonical registry is a map from identifier name to value; membership
is `canonical name = some v`. -/
abbrev Canon := Text → Option Nat

/-- One iteration of the `load_canonical` loop: an RE_CANONICAL match
overwrites the entry for its captured name (last wins). -/
def canonStep (result : Canon) (line : Text) : Canon :=
  match reSearch matchCanonicalAt line with
  | some nv => fun k => if k = nv.1 then some nv.2 else result k
  | none => result

/-- The loop of `load_canonical` over the lines of the canonical file. -/
def load_canonical_lines (lines : List Text) : Canon :=
  lines.foldl canonStep (fun _ => none)

/-- Kind of a reported inconsistency: a value differing from canonical
(carrying the expected value) or a name absent from canonical. -/
inductive MismatchKind : Type where
  | value_mismatch (expected : Nat) : MismatchKind
  | unknown_identifier : MismatchKind
deriving DecidableEq

/-- One entry appended to the `errors` list of `check_pal_files`, carrying
the data interpolated into the message: file, 1-based line number, name,
found value, and whether it came from the inline-asm pattern (whose message
renders the value with a u64 suffix). -/
structure Mismatch : Type where
  file : Text
  lineNo : Nat
  name : Text
  found : Nat
  fromAsm : Bool
  kind : MismatchKind
deriving DecidableEq

/-- Entries contributed by the RE_PAL_CONST pattern for one line: a
value_mismatch when the name is canonical with a different value, an
unknown_identifier when the name is not canonical, nothing otherwise. -/
def constEntries (canonical : Canon) (file : Text) (i : Nat) (line : Text) :
    List Mismatch :=
  match reSearch matchPalConstAt line with
  | none => []
  | some nv =>
    match canonical nv.1 with
    | some expected =>
      if expected ≠ nv.2 then
        [⟨file, i, nv.1, nv.2, false, MismatchKind.value_mismatch expected⟩]
      else []
    | none => [⟨file, i, nv.1, nv.2, false, MismatchKind.unknown_identifier⟩]

/-- Entries contributed by the RE_PAL_ASM pattern for one line. -/
def asmEntries (canonical : Canon) (file : Text) (i : Nat) (line : Text) :
    List Mismatch :=
  match reSearch matchPalAsmAt line with
  | none => []
  | some vn =>
    match canonical vn.2 with
    | some expected =>
      if expected ≠ vn.1 then
        [⟨file, i, vn.2, vn.1, true, MismatchKind.value_mismatch expected⟩]
      else []
    | none => [⟨file, i, vn.2, vn.1, true, MismatchKind.unknown_identifier⟩]

/-- Entries for one scanned line: pattern 1 then pattern 2, as in the loop
body of `check_pal_files`. -/
def checkLine (canonical : Canon) (file : Text) (i : Nat) (line : Text) :
    List Mismatch :=
  constEntries canonical file i line ++ asmEntries canonical file i line

/-- Entries for one file: every line, numbered from 1. -/
def checkFileContent (canonical : Canon) (file : Text) (content : Text) :
    List Mismatch :=
  (((splitlinesPy content).enumFrom 1).map
    (fun p => checkLine canonical file p.1 p.2)).flatten

/-- `check_pal_files`: `none` for the PAL directory models a missing
directory (return with no errors); otherwise the directory is the sorted
list of its .rs files as (path, content) pairs. -/
def check_pal_files (canonical : Canon)
    (pal_dir : Option (List (Text × Text))) : List Mismatch :=
  match pal_dir with
  | none => []
  | some files => (files.map (fun f => checkFileContent canonical f.1 f.2)).flatten

/-- Outcome of the checker entry point `main`: exit 2 before any scanning when the
canonical file is missing, exit 1 with the error list when mismatches were
found, exit 0 otherwise. -/
inductive CheckerOutcome : Type where
  | fatalMissingCanonical : CheckerOutcome
  | failed (errors : List Mismatch) : CheckerOutcome
  | passed : CheckerOutcome
deriving DecidableEq

/-- The process exit code of each checker outcome. -/
def checkerExitCode : CheckerOutcome → Nat
  | CheckerOutcome.fatalMissingCanonical => 2
  | CheckerOutcome.failed _ => 1
  | CheckerOutcome.passed => 0

/-- `main` of check-syscall-numbers.py: `canonical_file` is the content of
the canonical file when it exists, `pal_dir` as in `check_pal_files`. -/
def checkerMain (canonical_file : Option Text)
    (pal_dir : Option (List (Text × Text))) : CheckerOutcome :=
  match canonical_file with
  | none => CheckerOutcome.fatalMissingCanonical
  | some ctext =>
    let canonical := load_canonical_lines (splitlinesPy ctext)
    let errors := check_pal_files canonical pal_dir
    if errors = [] then CheckerOutcome.passed else CheckerOutcome.failed errors

/-! ## Derived notions used in statements -/

/-- Cumulative brace depth of a block after scanning its lines `0..m`
inclusive (the opening line of the block is line `0`). -/
def depthAfter (ls : List Text) (m : Nat) : Int :=
  ((ls.take (m + 1)).map braceDelta).sum

/-- Index of the first position whose cumulative delta, starting from `d`,
is `≤ 0`: the reference description of the closing-line search. -/
def depthCloseIdx : List Int → Int → Option Nat
  | [], _ => none
  | x :: rest, d =>
    if d + x ≤ 0 then some 0 else (depthCloseIdx rest (d + x)).map (· + 1)

/-- Example: the fallback-arm anchor line used by several descriptors. -/
def exAnchor : Text := txt "    _ => \x7b"

/-- Example content for the block scanner: a cfg_select block containing a
nested braced sub-block. -/
def exAllocContent : Text :=
  txt "use a;\ncfg_select! \x7b\n    x => \x7b\n        inner \x7b\x7d\n    \x7d\n\x7d\n"

/-- Example canonical file content for the checker. -/
def exCanonicalContent : Text :=
  txt "pub const SYS_READ: u64 = 0;\npub const SYS_WRITE: u64 = 1;"

/-- Example dependent file content redeclaring SYS_WRITE with a wrong value. -/
def exPalContent : Text := txt "const SYS_WRITE: u64 = 2;"

/-- Example file system holding every patch target (with empty content)
under the root path used in concrete runs. -/
def exFS : FileSys := patches.map (fun p => (pathJoin (txt "std") p.1, []))

/-- Example content with the needle on two separate lines. -/
def exC4Content : Text := txt "a\nfoo1\nfoo2\nb"

/-- Example needle. -/
def exNeedle : Text := txt "foo"

/-- Example insertion line. -/
def exIns : Text := txt "INS"

/-! ## Lemmas about line splitting and joining -/

theorem joinLines_splitLines (c : Text) : joinLines (splitLines c) = c := by
  show List.intercalate [nl] (List.splitOn nl c) = c
  exact List.intercalate_splitOn c nl

theorem joinLines_singleton (a : Text) : joinLines [a] = a := by
  simp [joinLines, List.intercalate]

theorem joinLines_cons_cons (a b : Text) (t : List Text) :
    joinLines (a :: b :: t) = a ++ nl :: joinLines (b :: t) := by
  simp [joinLines, List.intercalate, List.intersperse_cons_cons]

theorem infix_joinLines_of_mem {l : Text} :
    ∀ {ls : List Text}, l ∈ ls → l <:+: joinLines ls
  | [], h => absurd h (List.not_mem_nil l)
  | [a], h => by
      rcases List.mem_singleton.mp h with rfl
      rw [joinLines_singleton]
  | a :: b :: t, h => by
      rcases List.mem_cons.mp h with rfl | h2
      · rw [joinLines_cons_cons]
        exact List.IsPrefix.isInfix (List.prefix_append l _)
      · rw [joinLines_cons_cons]
        refine (infix_joinLines_of_mem h2).trans ?_
        have hs : joinLines (b :: t) <:+ (a ++ [nl]) ++ joinLines (b :: t) :=
          List.suffix_append _ _
        simpa using List.IsSuffix.isInfix hs

/-! ## Lemmas about the insertion loops -/

theorem insertBeforeGo_true (t i : Text) (ls : List Text) :
    insertBeforeGo t i ls true = ls := by
  induction ls with
  | nil => rfl
  | cons a rest ih => simp [insertBeforeGo, ih]

theorem insertAfterGo_true (t i : Text) (ls : List Text) :
    insertAfterGo t i ls true = ls := by
  induction ls with
  | nil => rfl
  | cons a rest ih => simp [insertAfterGo, ih]

theorem insertBeforeGo_no_match (t i : Text) (ls : List Text)
    (h : ∀ l ∈ ls, ¬ t <:+: l) : insertBeforeGo t i ls false = ls := by
  induction ls with
  | nil => rfl
  | cons a rest ih =>
      have ha : ¬ t <:+: a := h a (List.mem_cons_self a rest)
      rw [insertBeforeGo, if_neg (by simp [ha])]
      exact congrArg (a :: ·) (ih fun l hl => h l (List.mem_cons_of_mem a hl))

theorem insertAfterGo_no_match (t i : Text) (ls : List Text)
    (h : ∀ l ∈ ls, ¬ t <:+: l) : insertAfterGo t i ls false = ls := by
  induction ls with
  | nil => rfl
  | cons a rest ih =>
      have ha : ¬ t <:+: a := h a (List.mem_cons_self a rest)
      rw [insertAfterGo, if_neg (by simp [ha])]
      exact congrArg (a :: ·) (ih fun l hl => h l (List.mem_cons_of_mem a hl))

theorem insertBeforeGo_eq_or_mem (t i : Text) (ls : List Text) :
    insertBeforeGo t i ls false = ls ∨ i ∈ insertBeforeGo t i ls false := by
  induction ls with
  | nil => exact Or.inl rfl
  | cons a rest ih =>
      by_cases ha : t <:+: a
      · right
        rw [insertBeforeGo, if_pos (by simp [ha])]
        exact List.mem_cons_self i _
      · rw [insertBeforeGo, if_neg (by simp [ha])]
        rcases ih with heq | hmem
        · exact Or.inl (congrArg (a :: ·) heq)
        · exact Or.inr (List.mem_cons_of_mem a hmem)

theorem insertAfterGo_eq_or_mem (t i : Text) (ls : List Text) :
    insertAfterGo t i ls false = ls ∨ i ∈ insertAfterGo t i ls false := by
  induction ls with
  | nil => exact Or.inl rfl
  | cons a rest ih =>
      by_cases ha : t <:+: a
      · right
        rw [insertAfterGo, if_pos (by simp [ha])]
        exact List.mem_cons_of_mem a (List.mem_cons_self i _)
      · rw [insertAfterGo, if_neg (by simp [ha])]
        rcases ih with heq | hmem
        · exact Or.inl (congrArg (a :: ·) heq)
        · exact Or.inr (List.mem_cons_of_mem a hmem)

theorem insertBeforeGo_first_match (t i : Text) :
    ∀ ls : List Text, (∃ l ∈ ls, t <:+: l) →
      insertBeforeGo t i ls false =
        ls.take (ls.findIdx fun l => containsTok t l) ++
          i :: ls.drop (ls.findIdx fun l => containsTok t l)
  | [], h => absurd h (by simp)
  | a :: rest, h => by
      by_cases ha : t <:+: a
      · rw [insertBeforeGo, if_pos (by simp [ha])]
        simp [List.findIdx_cons, containsTok, ha, insertBeforeGo_true]
      · have hrest : ∃ l ∈ rest, t <:+: l := by
          rcases h with ⟨l, hl, hinf⟩
          rcases List.mem_cons.mp hl with rfl | hl2
          · exact absurd hinf ha
          · exact ⟨l, hl2, hinf⟩
        rw [insertBeforeGo, if_neg (by simp [ha])]
        rw [insertBeforeGo_first_match t i rest hrest]
        simp [List.findIdx_cons, containsTok, ha]

theorem insertAfterGo_first_match (t i : Text) :
    ∀ ls : List Text, (∃ l ∈ ls, t <:+: l) →
      insertAfterGo t i ls false =
        ls.take ((ls.findIdx fun l => containsTok t l) + 1) ++
          i :: ls.drop ((ls.findIdx fun l => containsTok t l) + 1)
  | [], h => absurd h (by simp)
  | a :: rest, h => by
      by_cases ha : t <:+: a
      · rw [insertAfterGo, if_pos (by simp [ha])]
        simp [List.findIdx_cons, containsTok, ha, insertAfterGo_true]
      · have hrest : ∃ l ∈ rest, t <:+: l := by
          rcases h with ⟨l, hl, hinf⟩
          rcases List.mem_cons.mp hl with rfl | hl2
          · exact absurd hinf ha
          · exact ⟨l, hl2, hinf⟩
        rw [insertAfterGo, if_neg (by simp [ha])]
        rw [insertAfterGo_first_match t i rest hrest]
        simp [List.findIdx_cons, containsTok, ha]

theorem insert_before_line_changed (c t i : Text)
    (h : insert_before_line c t i ≠ c) : i <:+: insert_before_line c t i := by
  rcases insertBeforeGo_eq_or_mem t i (splitLines c) with heq | hmem
  · exact absurd (by rw [insert_before_line, heq, joinLines_splitLines]) h
  · rw [insert_before_line]
    exact infix_joinLines_of_mem hmem

theorem insert_after_line_changed (c t i : Text)
    (h : insert_after_line c t i ≠ c) : i <:+: insert_after_line c t i := by
  rcases insertAfterGo_eq_or_mem t i (splitLines c) with heq | hmem
  · exact absurd (by rw [insert_after_line, heq, joinLines_splitLines]) h
  · rw [insert_after_line]
    exact infix_joinLines_of_mem hmem

/-! ## Each transform leaves the completion marker in any changed output -/

theorem marker_of_insert_before (c t i m : Text) (hm : m <:+: i)
    (h : insert_before_line c t i ≠ c) : m <:+: insert_before_line c t i :=
  hm.trans (insert_before_line_changed c t i h)

theorem marker_of_insert_after (c t i m : Text) (hm : m <:+: i)
    (h : insert_after_line c t i ≠ c) : m <:+: insert_after_line c t i :=
  hm.trans (insert_after_line_changed c t i h)

theorem marks_pal_mod (c : Text) (h : patch_pal_mod c ≠ c) :
    sabosMarker <:+: patch_pal_mod c :=
  marker_of_insert_before c _ _ _ (by decide) h

theorem marks_stdio_mod (c : Text) (h : patch_stdio_mod c ≠ c) :
    sabosMarker <:+: patch_stdio_mod c :=
  marker_of_insert_before c _ _ _ (by decide) h

theorem marks_env_consts (c : Text) (h : patch_env_consts c ≠ c) :
    sabosMarker <:+: patch_env_consts c :=
  marker_of_insert_before c _ _ _ (by decide) h

theorem marks_io_error_mod (c : Text) (h : patch_io_error_mod c ≠ c) :
    sabosMarker <:+: patch_io_error_mod c :=
  marker_of_insert_after c _ _ _ (by decide) h

theorem marks_random_mod (c : Text) (h : patch_random_mod c ≠ c) :
    sabosMarker <:+: patch_random_mod c :=
  marker_of_insert_before c _ _ _ (by decide) h

theorem marks_fs_mod (c : Text) (h : patch_fs_mod c ≠ c) :
    sabosMarker <:+: patch_fs_mod c :=
  marker_of_insert_before c _ _ _ (by decide) h

theorem marks_os_mod (c : Text) (h : patch_os_mod c ≠ c) :
    sabosMarker <:+: patch_os_mod c :=
  marker_of_insert_after c _ _ _ (by decide) h

theorem marks_thread_local_mod (c : Text) (h : patch_thread_local_mod c ≠ c) :
    sabosMarker <:+: patch_thread_local_mod c := by
  rw [patch_thread_local_mod] at h ⊢
  by_cases h2 : insert_after_line
      (insert_after_line c (txt "        target_os = \"vexos\",")
        (txt "        target_os = \"sabos\","))
      (txt "            target_os = \"vexos\",")
      (txt "            target_os = \"sabos\",") =
      insert_after_line c (txt "        target_os = \"vexos\",")
        (txt "        target_os = \"sabos\",")
  · rw [h2] at h ⊢
    exact marker_of_insert_after c _ _ _ (by decide) h
  · exact marker_of_insert_after _ _ _ _ (by decide) h2

theorem allocInsertGo_eq_or_mem (k : Nat) (ls : List Text) :
    ∀ n : Nat, allocInsertGo k ls n = ls ∨
      (txt "    target_os = \"sabos\" => \x7b") ∈ allocInsertGo k ls n := by
  induction ls with
  | nil => exact fun n => Or.inl rfl
  | cons a rest ih =>
      intro n
      by_cases hn : n = k
      · right
        rw [allocInsertGo, if_pos hn]
        exact List.mem_append_left _ (by simp [allocSabosLines])
      · rw [allocInsertGo, if_neg hn]
        rcases ih (n + 1) with heq | hmem
        · exact Or.inl (congrArg (a :: ·) heq)
        · exact Or.inr (List.mem_cons_of_mem a hmem)

theorem marks_alloc_mod (c : Text) (h : patch_alloc_mod c ≠ c) :
    sabosMarker <:+: patch_alloc_mod c := by
  rw [patch_alloc_mod] at h ⊢
  cases hscan : allocScanGo (splitLines c) 0 false 0 with
  | none => rw [hscan] at h; exact absurd rfl h
  | some k =>
      rw [hscan] at h
      have h2 : joinLines (allocInsertGo k (splitLines c) 0) ≠ c := h
      rcases allocInsertGo_eq_or_mem k (splitLines c) 0 with heq | hmem
      · rw [heq, joinLines_splitLines] at h2
        exact absurd rfl h2
      · show sabosMarker <:+: joinLines (allocInsertGo k (splitLines c) 0)
        exact List.IsInfix.trans (by decide) (infix_joinLines_of_mem hmem)

/-! ## patch_file case analysis -/

theorem patch_file_skip (c marker : Text) (T : Text → Text)
    (h : marker <:+: c) :
    patch_file c marker T = ⟨PatchStatus.SKIP, none⟩ := by
  rw [patch_file, if_pos h]

theorem patch_file_warn (c marker : Text) (T : Text → Text)
    (h1 : ¬ marker <:+: c) (h2 : T c = c) :
    patch_file c marker T = ⟨PatchStatus.WARN, none⟩ := by
  rw [patch_file, if_neg h1]
  simp [h2]

theorem patch_file_patch (c marker : Text) (T : Text → Text)
    (h1 : ¬ marker <:+: c) (h2 : T c ≠ c) :
    patch_file c marker T = ⟨PatchStatus.PATCH, some (T c)⟩ := by
  rw [patch_file, if_neg h1]
  simp [h2]

theorem patch_file_twice (c marker : Text) (T : Text → Text)
    (hT : ∀ x, T x ≠ x → marker <:+: T x) :
    ((patch_file ((patch_file c marker T).post c) marker T).post
        ((patch_file c marker T).post c) = (patch_file c marker T).post c)
    ∧ ((patch_file c marker T).status ≠ PatchStatus.WARN →
        (patch_file ((patch_file c marker T).post c) marker T).status =
          PatchStatus.SKIP) := by
  by_cases hm : marker <:+: c
  · simp [patch_file_skip c marker T hm, PatchResult.post]
  · by_cases he : T c = c
    · simp [patch_file_warn c marker T hm he, PatchResult.post]
    · have hmark : marker <:+: T c := hT c he
      simp [patch_file_patch c marker T hm he, PatchResult.post,
        patch_file_skip (T c) marker T hmark]

/-- Every entry of the static table carries the sabos marker, and its
transform embeds that marker into any output it changes. -/
theorem patches_marker_sound :
    ∀ p ∈ patches, p.2.1 = sabosMarker ∧
      ∀ c, p.2.2 c ≠ c → sabosMarker <:+: p.2.2 c := by
  intro p hp
  simp only [patches, List.mem_cons, List.not_mem_nil, or_false] at hp
  rcases hp with rfl | rfl | rfl | rfl | rfl | rfl | rfl | rfl | rfl
  · exact ⟨rfl, marks_pal_mod⟩
  · exact ⟨rfl, marks_alloc_mod⟩
  · exact ⟨rfl, marks_stdio_mod⟩
  · exact ⟨rfl, marks_thread_local_mod⟩
  · exact ⟨rfl, marks_env_consts⟩
  · exact ⟨rfl, marks_io_error_mod⟩
  · exact ⟨rfl, marks_random_mod⟩
  · exact ⟨rfl, marks_fs_mod⟩
  · exact ⟨rfl, marks_os_mod⟩

/-- No line contains the opening token: the scanner never starts. -/
theorem allocScanGo_no_token :
    ∀ (ls : List Text), (∀ l ∈ ls, ¬ cfgSelectTok <:+: l) →
      ∀ (i : Nat) (d : Int), allocScanGo ls i false d = none
  | [], _, _, _ => rfl
  | a :: rest, h, i, d => by
      have ha : ¬ cfgSelectTok <:+: a := h a (List.mem_cons_self a rest)
      have hc : containsTok cfgSelectTok a = false := by simp [containsTok, ha]
      rw [allocScanGo]
      simp only [hc, Bool.not_false, Bool.and_false, Bool.false_or, Bool.or_false]
      rw [if_neg (by simp)]
      exact allocScanGo_no_token rest
        (fun l hl => h l (List.mem_cons_of_mem a hl)) (i + 1) d

/-! ## Claim C1 -/

/-- C1 counterexample: for the first descriptor of the static table, with
empty initial content, the transform has no effect, so the second application
reports WARN rather than SKIPPED (the marker is not a substring of the
transformed content there). -/
theorem C1_counterexample :
    (txt "sys/pal/mod.rs", sabosMarker, patch_pal_mod) ∈ patches ∧
    ¬ (patch_file ((patch_file [] sabosMarker patch_pal_mod).post [])
        sabosMarker patch_pal_mod).status = PatchStatus.SKIP := by
  refine ⟨?_, ?_⟩
  · simp only [patches]
    exact List.mem_cons_self _ _
  · decide

/-- C1 (amended): for every patch descriptor in the static table, applying
`patch_file` twice in succession to the same initial file content yields
identical final content to applying it once, and — provided the first
application did not report NO_EFFECT (WARN) — the second application reports
SKIPPED, because the marker is then a substring of the on-disk content. -/
theorem C1_patch_idempotent (p : Text × Text × (Text → Text))
    (hp : p ∈ patches) (c : Text) :
    ((patch_file ((patch_file c p.2.1 p.2.2).post c) p.2.1 p.2.2).post
        ((patch_file c p.2.1 p.2.2).post c) = (patch_file c p.2.1 p.2.2).post c)
    ∧ ((patch_file c p.2.1 p.2.2).status ≠ PatchStatus.WARN →
        (patch_file ((patch_file c p.2.1 p.2.2).post c) p.2.1 p.2.2).status =
          PatchStatus.SKIP) := by
  obtain ⟨hm, hmk⟩ := patches_marker_sound p hp
  exact patch_file_twice c p.2.1 p.2.2 (by rw [hm]; exact hmk)

/-- Witness for C1: the first descriptor applied to content holding exactly
its anchor line. -/
theorem C1_patch_idempotent_witness :
    ((patch_file ((patch_file exAnchor sabosMarker patch_pal_mod).post exAnchor)
        sabosMarker patch_pal_mod).post
        ((patch_file exAnchor sabosMarker patch_pal_mod).post exAnchor) =
      (patch_file exAnchor sabosMarker patch_pal_mod).post exAnchor)
    ∧ ((patch_file exAnchor sabosMarker patch_pal_mod).status ≠ PatchStatus.WARN →
        (patch_file ((patch_file exAnchor sabosMarker patch_pal_mod).post exAnchor)
          sabosMarker patch_pal_mod).status = PatchStatus.SKIP) :=
  C1_patch_idempotent (txt "sys/pal/mod.rs", sabosMarker, patch_pal_mod)
    (by simp only [patches]; exact List.mem_cons_self _ _) exAnchor

/-! ## Claim C4 -/

/-- C4: when some line of the input contains the needle, `insert_before_line`
returns exactly the original lines with the insertion placed as one new line
immediately before the first line containing the needle (all later matching
lines are left untouched, all original lines are copied in order), and
`insert_after_line` places it immediately after that same line. -/
theorem C4_first_match_insertion (c needle ins : Text)
    (h : ∃ l ∈ splitLines c, needle <:+: l) :
    (∀ j < (splitLines c).findIdx (fun l => containsTok needle l),
        ¬ needle <:+: (splitLines c).getD j [])
    ∧ needle <:+:
        (splitLines c).getD ((splitLines c).findIdx fun l => containsTok needle l) []
    ∧ insert_before_line c needle ins =
        joinLines ((splitLines c).take
            ((splitLines c).findIdx fun l => containsTok needle l) ++
          ins :: (splitLines c).drop
            ((splitLines c).findIdx fun l => containsTok needle l))
    ∧ insert_after_line c needle ins =
        joinLines ((splitLines c).take
            (((splitLines c).findIdx fun l => containsTok needle l) + 1) ++
          ins :: (splitLines c).drop
            (((splitLines c).findIdx fun l => containsTok needle l) + 1)) := by
  have hex : ∃ x ∈ splitLines c, (fun l => containsTok needle l) x = true := by
    rcases h with ⟨l, hl, hi⟩
    exact ⟨l, hl, by simp [containsTok, hi]⟩
  have hk : (splitLines c).findIdx (fun l => containsTok needle l) <
      (splitLines c).length := List.findIdx_lt_length.mpr hex
  refine ⟨?_, ?_, ?_, ?_⟩
  · intro j hj
    have hjl : j < (splitLines c).length := lt_trans hj hk
    have hfalse := List.not_of_lt_findIdx hj
    rw [List.getD_eq_getElem?_getD, List.getElem?_eq_getElem hjl]
    simpa [containsTok] using hfalse
  · rw [List.getD_eq_getElem?_getD, List.getElem?_eq_getElem hk]
    have htrue := @List.findIdx_getElem _ _ _ hk
    simpa [containsTok] using htrue
  · rw [insert_before_line, insertBeforeGo_first_match needle ins _ h]
  · rw [insert_after_line, insertAfterGo_first_match needle ins _ h]

/-- Witness for C4 at content whose needle occurs on two separate lines. -/
theorem C4_first_match_insertion_witness :
    (∀ j < (splitLines exC4Content).findIdx (fun l => containsTok exNeedle l),
        ¬ exNeedle <:+: (splitLines exC4Content).getD j [])
    ∧ exNeedle <:+:
        (splitLines exC4Content).getD
          ((splitLines exC4Content).findIdx fun l => containsTok exNeedle l) []
    ∧ insert_before_line exC4Content exNeedle exIns =
        joinLines ((splitLines exC4Content).take
            ((splitLines exC4Content).findIdx fun l => containsTok exNeedle l) ++
          exIns :: (splitLines exC4Content).drop
            ((splitLines exC4Content).findIdx fun l => containsTok exNeedle l))
    ∧ insert_after_line exC4Content exNeedle exIns =
        joinLines ((splitLines exC4Content).take
            (((splitLines exC4Content).findIdx fun l => containsTok exNeedle l) + 1) ++
          exIns :: (splitLines exC4Content).drop
            (((splitLines exC4Content).findIdx fun l => containsTok exNeedle l) + 1)) :=
  C4_first_match_insertion exC4Content exNeedle exIns (by decide)

/-! ## Claim C5 -/

/-- C5: each anchor strategy is the identity when its anchor is absent: if no
line of the input contains the needle, `insert_before_line` and
`insert_after_line` return the input unchanged; and if no line contains the
opening token of the block scanner, `patch_alloc_mod` returns the input
unchanged. -/
theorem C5_identity_when_absent (c t i : Text) :
    ((∀ l ∈ splitLines c, ¬ t <:+: l) →
        insert_before_line c t i = c ∧ insert_after_line c t i = c)
    ∧ ((∀ l ∈ splitLines c, ¬ cfgSelectTok <:+: l) → patch_alloc_mod c = c) := by
  constructor
  · intro h
    constructor
    · rw [insert_before_line, insertBeforeGo_no_match t i _ h, joinLines_splitLines]
    · rw [insert_after_line, insertAfterGo_no_match t i _ h, joinLines_splitLines]
  · intro h
    show (match allocScanGo (splitLines c) 0 false 0 with
      | none => c
      | some insert_idx => joinLines (allocInsertGo insert_idx (splitLines c) 0)) = c
    rw [allocScanGo_no_token (splitLines c) h 0 0]

/-- Witness for C5 at content free of both the needle and the token. -/
theorem C5_identity_when_absent_witness :
    insert_before_line (txt "a\nb") (txt "zzz") exIns = txt "a\nb"
    ∧ insert_after_line (txt "a\nb") (txt "zzz") exIns = txt "a\nb"
    ∧ patch_alloc_mod (txt "a\nb") = txt "a\nb" :=
  ⟨((C5_identity_when_absent (txt "a\nb") (txt "zzz") exIns).1 (by decide)).1,
   ((C5_identity_when_absent (txt "a\nb") (txt "zzz") exIns).1 (by decide)).2,
   (C5_identity_when_absent (txt "a\nb") (txt "zzz") exIns).2 (by decide)⟩

/-! ## Claim C6 -/

/-- C6: `patch_file` writes only on the PATCH path: with the marker already
present it returns SKIP without a write, with an ineffective transform it
returns WARN (a surfaced warning status) without a write, and otherwise it
writes the transformed text and returns PATCH; whenever the status is not
PATCH the on-disk content is unchanged. -/
theorem C6_write_only_on_patch (c marker : Text) (T : Text → Text) :
    ((patch_file c marker T).write = none ↔
      (patch_file c marker T).status ≠ PatchStatus.PATCH)
    ∧ (marker <:+: c → patch_file c marker T = ⟨PatchStatus.SKIP, none⟩)
    ∧ (¬ marker <:+: c → T c = c →
        patch_file c marker T = ⟨PatchStatus.WARN, none⟩)
    ∧ (¬ marker <:+: c → T c ≠ c →
        patch_file c marker T = ⟨PatchStatus.PATCH, some (T c)⟩)
    ∧ ((patch_file c marker T).status ≠ PatchStatus.PATCH →
        (patch_file c marker T).post c = c) := by
  by_cases hm : marker <:+: c
  · simp [patch_file_skip c marker T hm, PatchResult.post, hm]
  · by_cases he : T c = c
    · simp [patch_file_warn c marker T hm he, PatchResult.post, hm, he]
    · simp [patch_file_patch c marker T hm he, PatchResult.post, hm, he]

/-- Witness for C6: a patching run and a no-effect run of the first
descriptor. -/
theorem C6_write_only_on_patch_witness :
    patch_file exAnchor sabosMarker patch_pal_mod =
      ⟨PatchStatus.PATCH, some (patch_pal_mod exAnchor)⟩
    ∧ patch_file [] sabosMarker patch_pal_mod = ⟨PatchStatus.WARN, none⟩ :=
  ⟨(C6_write_only_on_patch exAnchor sabosMarker patch_pal_mod).2.2.2.1
      (by decide) (by decide),
   (C6_write_only_on_patch [] sabosMarker patch_pal_mod).2.2.1
      (by decide) (by decide)⟩

/-! ## Claim C3: block-boundary scanner -/

/-- Once inside the block, the scanner is a pure depth scan. -/
theorem allocScanGo_inside :
    ∀ (ls : List Text) (i : Nat) (d : Int),
      allocScanGo ls i true d =
        (depthCloseIdx (ls.map braceDelta) d).map (· + i)
  | [], _, _ => rfl
  | l :: rest, i, d => by
      rw [List.map_cons, depthCloseIdx, allocScanGo]
      simp only [Bool.not_true, Bool.false_and, Bool.or_false, if_false,
        Bool.false_eq_true, ite_false, ite_true, if_true]
      by_cases hle : d + braceDelta l ≤ 0
      · simp [hle]
      · rw [if_neg hle, if_neg hle, allocScanGo_inside rest (i + 1) (d + braceDelta l)]
        cases depthCloseIdx (rest.map braceDelta) (d + braceDelta l) with
        | none => rfl
        | some a => simp; omega

/-- Lines before the opening token are skipped, shifting the index. -/
theorem allocScanGo_append_pre :
    ∀ (pre : List Text), (∀ l ∈ pre, ¬ cfgSelectTok <:+: l) →
      ∀ (ls : List Text) (i : Nat) (d : Int),
        allocScanGo (pre ++ ls) i false d = allocScanGo ls (i + pre.length) false d
  | [], _, ls, i, d => by simp
  | a :: pre2, h, ls, i, d => by
      have ha : containsTok cfgSelectTok a = false := by
        simp [containsTok]
        exact h a (List.mem_cons_self a pre2)
      rw [List.cons_append, allocScanGo]
      simp only [ha, Bool.not_false, Bool.true_and, Bool.or_false, if_false,
        Bool.false_eq_true, ite_false]
      rw [allocScanGo_append_pre pre2
        (fun l hl => h l (List.mem_cons_of_mem a hl)) ls (i + 1) d]
      have hidx : i + 1 + pre2.length = i + (a :: pre2).length := by
        simp [List.length_cons]
        omega
      rw [hidx]

/-- On the line holding the opening token the depth starts at zero and that
line's own braces are counted; from there the scan is the pure depth scan. -/
theorem allocScanGo_enter (l : Text) (rest : List Text) (i : Nat) (d : Int)
    (hl : cfgSelectTok <:+: l) :
    allocScanGo (l :: rest) i false d =
      (depthCloseIdx ((l :: rest).map braceDelta) 0).map (· + i) := by
  have hc : containsTok cfgSelectTok l = true := by simp [containsTok, hl]
  rw [List.map_cons, depthCloseIdx, allocScanGo]
  simp only [hc, Bool.not_false, Bool.true_and, Bool.false_or, if_true,
    ite_true]
  rw [zero_add]
  by_cases hle : braceDelta l ≤ 0
  · simp [hle]
  · rw [if_neg hle, if_neg hle, allocScanGo_inside rest (i + 1) (braceDelta l)]
    cases depthCloseIdx (rest.map braceDelta) (braceDelta l) with
    | none => rfl
    | some a => simp; omega

/-- Characterization of the reference depth scan: it returns the first index
whose cumulative delta is `≤ 0`. -/
theorem depthCloseIdx_spec :
    ∀ (ds : List Int) (d : Int) (m : Nat),
      depthCloseIdx ds d = some m ↔
        (m < ds.length ∧ d + (ds.take (m + 1)).sum ≤ 0 ∧
          ∀ m' < m, 0 < d + (ds.take (m' + 1)).sum)
  | [], d, m => by simp [depthCloseIdx]
  | x :: rest, d, m => by
      rw [depthCloseIdx]
      by_cases hle : d + x ≤ 0
      · rw [if_pos hle]
        cases m with
        | zero => simp [hle]
        | succ m2 =>
            constructor
            · intro hsome
              exact absurd (Option.some.inj hsome) (by omega)
            · rintro ⟨-, -, hall⟩
              have h0 := hall 0 (Nat.succ_pos m2)
              rw [List.take_succ_cons, List.take_zero, List.sum_cons,
                List.sum_nil] at h0
              omega
      · rw [if_neg hle]
        cases m with
        | zero =>
            constructor
            · intro hsome
              rcases Option.map_eq_some'.mp hsome with ⟨a, -, ha⟩
              omega
            · rintro ⟨-, habs, -⟩
              rw [List.take_succ_cons, List.take_zero, List.sum_cons,
                List.sum_nil] at habs
              omega
        | succ m2 =>
            have hmap : ((depthCloseIdx rest (d + x)).map (· + 1) = some (m2 + 1)) ↔
                depthCloseIdx rest (d + x) = some m2 := by
              cases hdc : depthCloseIdx rest (d + x) with
              | none => simp
              | some a => simp
            rw [hmap, depthCloseIdx_spec rest (d + x) m2]
            constructor
            · rintro ⟨h1, h2, h3⟩
              refine ⟨Nat.succ_lt_succ h1, ?_, ?_⟩
              · rw [List.take_succ_cons, List.sum_cons]
                omega
              · intro m' hm'
                cases m' with
                | zero =>
                    rw [List.take_succ_cons, List.take_zero, List.sum_cons,
                      List.sum_nil]
                    omega
                | succ j =>
                    have hj := h3 j (Nat.lt_of_succ_lt_succ hm')
                    rw [List.take_succ_cons, List.sum_cons]
                    omega
            · rintro ⟨h1, h2, h3⟩
              rw [List.take_succ_cons, List.sum_cons] at h2
              refine ⟨Nat.lt_of_succ_lt_succ (by simpa using h1), by omega, ?_⟩
              intro j hj
              have hsj := h3 (j + 1) (Nat.succ_lt_succ hj)
              rw [List.take_succ_cons, List.sum_cons] at hsj
              omega

/-- The insertion loop never fires once the position has passed the index. -/
theorem allocInsertGo_gt :
    ∀ (ls : List Text) (k n : Nat), k < n → allocInsertGo k ls n = ls
  | [], _, _, _ => rfl
  | a :: rest, k, n, h => by
      rw [allocInsertGo, if_neg (by omega)]
      exact congrArg (a :: ·) (allocInsertGo_gt rest k (n + 1) (by omega))

/-- The insertion loop places the sabos lines immediately before the line at
the given index. -/
theorem allocInsertGo_take_drop :
    ∀ (ls : List Text) (k n : Nat), k < ls.length →
      allocInsertGo (n + k) ls n = ls.take k ++ allocSabosLines ++ ls.drop k
  | [], k, _, h => absurd h (by simp)
  | a :: rest, 0, n, _ => by
      rw [allocInsertGo, if_pos (by omega)]
      simp [allocInsertGo_gt rest n (n + 1) (by omega),
        allocInsertGo_gt rest (n + 0) (n + 1) (by omega)]
  | a :: rest, k + 1, n, h => by
      rw [allocInsertGo, if_neg (by omega)]
      have hrec := allocInsertGo_take_drop rest k (n + 1)
        (Nat.lt_of_succ_lt_succ (by simpa using h))
      rw [show n + (k + 1) = n + 1 + k by omega, hrec]
      simp

/-- C3: upon the first line containing the opening token, the scanner starts
a signed depth counter at zero, adds (open-brace count minus close-brace
count) per line — that line included — and selects the first line at which
the depth becomes `≤ 0` after update as the closing line of the block; for nested
brace-delimited sub-blocks (whose intermediate depths stay positive) this is
the closing line of the outermost block.  The transform then inserts the sabos
lines immediately before that line. -/
theorem C3_block_scanner (c : Text) (pre rest : List Text) (l0 : Text)
    (hsplit : splitLines c = pre ++ l0 :: rest)
    (hpre : ∀ l ∈ pre, ¬ cfgSelectTok <:+: l)
    (hl0 : cfgSelectTok <:+: l0) :
    (∀ m : Nat,
      allocScanGo (splitLines c) 0 false 0 = some (pre.length + m) ↔
        (m < (l0 :: rest).length ∧ depthAfter (l0 :: rest) m ≤ 0 ∧
          ∀ m' < m, 0 < depthAfter (l0 :: rest) m'))
    ∧ (∀ j, allocScanGo (splitLines c) 0 false 0 = some j →
        patch_alloc_mod c =
          joinLines ((splitLines c).take j ++ allocSabosLines ++
            (splitLines c).drop j)) := by
  have hscan : allocScanGo (splitLines c) 0 false 0 =
      (depthCloseIdx ((l0 :: rest).map braceDelta) 0).map (· + pre.length) := by
    rw [hsplit, allocScanGo_append_pre pre hpre (l0 :: rest) 0 0,
      allocScanGo_enter l0 rest (0 + pre.length) 0 hl0, Nat.zero_add]
  have hinj : ∀ (X : Option Nat) (m : Nat),
      X.map (· + pre.length) = some (pre.length + m) ↔ X = some m := by
    intro X m
    cases X with
    | none => simp
    | some a => simp; omega
  have hsum : ∀ m : Nat,
      (((l0 :: rest).map braceDelta).take (m + 1)).sum = depthAfter (l0 :: rest) m := by
    intro m
    rw [depthAfter, ← List.map_take]
  constructor
  · intro m
    rw [hscan, hinj _ m, depthCloseIdx_spec, List.length_map]
    constructor
    · rintro ⟨h1, h2, h3⟩
      refine ⟨h1, by rw [← hsum m]; omega, fun m' hm' => by rw [← hsum m']; have := h3 m' hm'; omega⟩
    · rintro ⟨h1, h2, h3⟩
      refine ⟨h1, by rw [hsum m]; omega, fun m' hm' => by rw [hsum m']; have := h3 m' hm'; omega⟩
  · intro j hj
    have hj2 := hj
    rw [hscan] at hj2
    rcases Option.map_eq_some'.mp hj2 with ⟨m, hm, hjm⟩
    have hmlen : m < (l0 :: rest).length := by
      have := (depthCloseIdx_spec _ _ _).mp hm
      simpa [List.length_map] using this.1
    have hjlen : j < (splitLines c).length := by
      rw [hsplit, List.length_append]
      omega
    show (match allocScanGo (splitLines c) 0 false 0 with
      | none => c
      | some insert_idx => joinLines (allocInsertGo insert_idx (splitLines c) 0)) =
        joinLines ((splitLines c).take j ++ allocSabosLines ++ (splitLines c).drop j)
    rw [hj]
    have htd := allocInsertGo_take_drop (splitLines c) j 0 hjlen
    rw [Nat.zero_add] at htd
    show joinLines (allocInsertGo j (splitLines c) 0) =
      joinLines ((splitLines c).take j ++ allocSabosLines ++ (splitLines c).drop j)
    rw [htd]

/-- Witness for C3 at a cfg_select block containing a nested braced
sub-block: the selected closing line is the outermost one (index 5, the
final brace), not that of the nested block. -/
theorem C3_block_scanner_witness :
    allocScanGo (splitLines exAllocContent) 0 false 0 = some (1 + 4)
    ∧ patch_alloc_mod exAllocContent =
        joinLines ((splitLines exAllocContent).take (1 + 4) ++ allocSabosLines ++
          (splitLines exAllocContent).drop (1 + 4)) := by
  have h := C3_block_scanner exAllocContent [txt "use a;"]
    [txt "    x => \x7b", txt "        inner \x7b\x7d", txt "    \x7d", txt "\x7d",
      txt ""]
    (txt "cfg_select! \x7b") (by decide) (by decide) (by decide)
  have h1 := (h.1 4).mpr ⟨by decide, by decide, by decide⟩
  exact ⟨h1, h.2 (1 + 4) h1⟩

/-! ## Claim C2 -/

/-- C2: for every scanned line and each of the two patterns with captured
(name, value): a canonical name with a differing value yields exactly one
value_mismatch entry carrying the found and expected values; a name absent
from canonical yields exactly one unknown_identifier entry; an agreeing
value yields no entry for that match; and the emissions of a line are exactly
those of pattern 1 followed by those of pattern 2. -/
theorem C2_mismatch_reporting (canonical : Canon) (file : Text) (i : Nat)
    (line : Text) :
    (∀ name number, reSearch matchPalConstAt line = some (name, number) →
      ((∀ v, canonical name = some v → v ≠ number →
          constEntries canonical file i line =
            [⟨file, i, name, number, false, MismatchKind.value_mismatch v⟩])
        ∧ (canonical name = none →
            constEntries canonical file i line =
              [⟨file, i, name, number, false, MismatchKind.unknown_identifier⟩])
        ∧ (canonical name = some number →
            constEntries canonical file i line = [])))
    ∧ (∀ number name, reSearch matchPalAsmAt line = some (number, name) →
      ((∀ v, canonical name = some v → v ≠ number →
          asmEntries canonical file i line =
            [⟨file, i, name, number, true, MismatchKind.value_mismatch v⟩])
        ∧ (canonical name = none →
            asmEntries canonical file i line =
              [⟨file, i, name, number, true, MismatchKind.unknown_identifier⟩])
        ∧ (canonical name = some number →
            asmEntries canonical file i line = [])))
    ∧ (reSearch matchPalConstAt line = none →
        constEntries canonical file i line = [])
    ∧ (reSearch matchPalAsmAt line = none →
        asmEntries canonical file i line = [])
    ∧ checkLine canonical file i line =
        constEntries canonical file i line ++ asmEntries canonical file i line := by
  refine ⟨?_, ?_, ?_, ?_, rfl⟩
  · intro name number h
    refine ⟨?_, ?_, ?_⟩
    · intro v hv hne
      simp [constEntries, h, hv, hne]
    · intro hv
      simp [constEntries, h, hv]
    · intro hv
      simp [constEntries, h, hv]
  · intro number name h
    refine ⟨?_, ?_, ?_⟩
    · intro v hv hne
      simp [asmEntries, h, hv, hne]
    · intro hv
      simp [asmEntries, h, hv]
    · intro hv
      simp [asmEntries, h, hv]
  · intro h
    simp [constEntries, h]
  · intro h
    simp [asmEntries, h]

/-- Witness for C2: the round-trip example of the spec — canonical SYS_WRITE = 1 and a
dependent line declaring 2 yields exactly one value_mismatch with found 2,
expected 1. -/
theorem C2_mismatch_reporting_witness :
    constEntries (load_canonical_lines (splitlinesPy exCanonicalContent))
        (txt "rust-std-sabos/pal.rs") 1 exPalContent =
      [⟨txt "rust-std-sabos/pal.rs", 1, txt "SYS_WRITE", 2, false,
        MismatchKind.value_mismatch 1⟩] :=
  (((C2_mismatch_reporting (load_canonical_lines (splitlinesPy exCanonicalContent))
      (txt "rust-std-sabos/pal.rs") 1 exPalContent).1
    (txt "SYS_WRITE") 2 (by decide)).1) 1 (by decide) (by decide)

/-! ## Claim C7 -/

/-- C7: the exit code of the checker is exactly determined by its outcome: 0 when
the mismatch list is empty, 1 when mismatches were found (the outcome carries
the full list), and 2 when the canonical file is missing — in which case the
run terminates identically for every dependent directory, before any
scanning. -/
theorem C7_exit_codes (ctext : Text) (pal : Option (List (Text × Text))) :
    (∀ d : Option (List (Text × Text)),
        checkerMain none d = CheckerOutcome.fatalMissingCanonical ∧
        checkerExitCode (checkerMain none d) = 2)
    ∧ (check_pal_files (load_canonical_lines (splitlinesPy ctext)) pal = [] →
        checkerMain (some ctext) pal = CheckerOutcome.passed ∧
        checkerExitCode (checkerMain (some ctext) pal) = 0)
    ∧ (check_pal_files (load_canonical_lines (splitlinesPy ctext)) pal ≠ [] →
        checkerMain (some ctext) pal =
          CheckerOutcome.failed
            (check_pal_files (load_canonical_lines (splitlinesPy ctext)) pal) ∧
        checkerExitCode (checkerMain (some ctext) pal) = 1) := by
  refine ⟨fun d => ⟨rfl, rfl⟩, ?_, ?_⟩
  · intro h
    have h1 : checkerMain (some ctext) pal = CheckerOutcome.passed := by
      simp [checkerMain, h]
    exact ⟨h1, by rw [h1]; rfl⟩
  · intro h
    have h1 : checkerMain (some ctext) pal =
        CheckerOutcome.failed
          (check_pal_files (load_canonical_lines (splitlinesPy ctext)) pal) := by
      simp [checkerMain, h]
    exact ⟨h1, by rw [h1]; rfl⟩

/-- Witness for C7: exit 2 on a missing canonical file whatever the
directory, exit 1 on a mismatch, exit 0 on a clean run. -/
theorem C7_exit_codes_witness :
    checkerExitCode (checkerMain none
        (some [(txt "rust-std-sabos/pal.rs", exPalContent)])) = 2
    ∧ checkerExitCode (checkerMain (some exCanonicalContent)
        (some [(txt "rust-std-sabos/pal.rs", exPalContent)])) = 1
    ∧ checkerExitCode (checkerMain (some exCanonicalContent) none) = 0 :=
  ⟨((C7_exit_codes exCanonicalContent none).1
      (some [(txt "rust-std-sabos/pal.rs", exPalContent)])).2,
   ((C7_exit_codes exCanonicalContent
      (some [(txt "rust-std-sabos/pal.rs", exPalContent)])).2.2 (by decide)).2,
   ((C7_exit_codes exCanonicalContent none).2.1 (by decide)).2⟩

/-! ## Claim C9 -/

/-- C9: for every canonical map, a missing dependent directory yields an
empty mismatch list (vacuously consistent, not an error), and the run exits
with code 0. -/
theorem C9_missing_dir (canonical : Canon) (ctext : Text) :
    check_pal_files canonical none = []
    ∧ checkerMain (some ctext) none = CheckerOutcome.passed
    ∧ checkerExitCode (checkerMain (some ctext) none) = 0 :=
  ⟨rfl, rfl, rfl⟩

/-! ## Claim C10 -/

/-- Any name captured by the anchored RE_PAL_CONST matcher starts with SYS_. -/
theorem matchPalConstAt_name (s n : Text) (v : Nat)
    (h : matchPalConstAt s = some (n, v)) : txt "SYS_" <+: n := by
  simp only [matchPalConstAt] at h
  split at h
  · exact absurd h (by simp)
  split at h
  · exact absurd h (by simp)
  split at h
  · exact absurd h (by simp)
  split at h
  · exact absurd h (by simp)
  split at h
  · exact absurd h (by simp)
  split at h
  · exact absurd h (by simp)
  split at h
  · exact absurd h (by simp)
  split at h
  · exact absurd h (by simp)
  have hpair := Option.some.inj h
  rw [Prod.mk.injEq] at hpair
  exact hpair.1 ▸ List.prefix_append _ _

/-- Any name captured by the anchored RE_CANONICAL matcher starts with SYS_. -/
theorem matchCanonicalAt_name (s n : Text) (v : Nat)
    (h : matchCanonicalAt s = some (n, v)) : txt "SYS_" <+: n := by
  rw [matchCanonicalAt] at h
  split at h
  · exact absurd h (by simp)
  · exact matchPalConstAt_name _ n v h

/-- Any name captured by the anchored RE_PAL_ASM matcher starts with SYS_. -/
theorem matchPalAsmAt_name (s n : Text) (v : Nat)
    (h : matchPalAsmAt s = some (v, n)) : txt "SYS_" <+: n := by
  simp only [matchPalAsmAt] at h
  split at h
  · exact absurd h (by simp)
  split at h
  · exact absurd h (by simp)
  split at h
  · exact absurd h (by simp)
  split at h
  · exact absurd h (by simp)
  split at h
  · exact absurd h (by simp)
  split at h
  · exact absurd h (by simp)
  split at h
  · exact absurd h (by simp)
  split at h
  · exact absurd h (by simp)
  have hpair := Option.some.inj h
  rw [Prod.mk.injEq] at hpair
  exact hpair.2 ▸ List.prefix_append _ _

/-- A successful search comes from a successful anchored match at some
suffix. -/
theorem reSearch_exists {α : Type} (m : Text → Option α) :
    ∀ (s : Text) (r : α), reSearch m s = some r → ∃ t : Text, m t = some r
  | [], r, h => ⟨[], h⟩
  | c :: rest, r, h => by
      rw [reSearch] at h
      split at h
      · exact ⟨c :: rest, by rw [‹m (c :: rest) = some _›, h]⟩
      · exact reSearch_exists m rest r h

/-- C10: the three extraction patterns only recognize SYS_-prefixed names,
a line matching neither dependent pattern emits no entry, a line not
matching the canonical pattern leaves the canonical map untouched, and
declarations with another name prefix, another integer type, a hex literal
or a negative literal are invisible to all patterns. -/
theorem C10_pattern_scope (canonical : Canon) (file : Text) (i : Nat)
    (line : Text) (pre post : List Text) :
    (∀ n v, reSearch matchCanonicalAt line = some (n, v) → txt "SYS_" <+: n)
    ∧ (∀ n v, reSearch matchPalConstAt line = some (n, v) → txt "SYS_" <+: n)
    ∧ (∀ v n, reSearch matchPalAsmAt line = some (v, n) → txt "SYS_" <+: n)
    ∧ (reSearch matchPalConstAt line = none →
        reSearch matchPalAsmAt line = none →
        checkLine canonical file i line = [])
    ∧ (reSearch matchCanonicalAt line = none →
        load_canonical_lines (pre ++ line :: post) =
          load_canonical_lines (pre ++ post))
    ∧ reSearch matchPalConstAt (txt "const FOO: u64 = 5;") = none
    ∧ reSearch matchCanonicalAt (txt "pub const FOO: u64 = 5;") = none
    ∧ reSearch matchPalConstAt (txt "const SYS_ABC: u32 = 1;") = none
    ∧ reSearch matchPalConstAt (txt "const SYS_ABC: u64 = 0x2A;") = none
    ∧ reSearch matchPalConstAt (txt "const SYS_ABC: u64 = -1;") = none
    ∧ reSearch matchPalAsmAt (txt "in(\"rax\") 0x2Au64, // SYS_ABC") = none := by
  refine ⟨?_, ?_, ?_, ?_, ?_, by decide, by decide, by decide, by decide,
    by decide, by decide⟩
  · intro n v h
    rcases reSearch_exists matchCanonicalAt line (n, v) h with ⟨t, ht⟩
    exact matchCanonicalAt_name t n v ht
  · intro n v h
    rcases reSearch_exists matchPalConstAt line (n, v) h with ⟨t, ht⟩
    exact matchPalConstAt_name t n v ht
  · intro v n h
    rcases reSearch_exists matchPalAsmAt line (v, n) h with ⟨t, ht⟩
    exact matchPalAsmAt_name t n v ht
  · intro h1 h2
    simp [checkLine, constEntries, asmEntries, h1, h2]
  · intro h
    have hstep : ∀ mcanon : Canon, canonStep mcanon line = mcanon := by
      intro mcanon
      rw [canonStep, h]
    rw [load_canonical_lines, load_canonical_lines, List.foldl_append,
      List.foldl_append, List.foldl_cons, hstep]

/-- Witness for C10: a canonical-shaped line yields a SYS_-prefixed name and
an unrelated line emits nothing. -/
theorem C10_pattern_scope_witness :
    (txt "SYS_" <+: txt "SYS_READ")
    ∧ checkLine (load_canonical_lines (splitlinesPy exCanonicalContent))
        (txt "f.rs") 1 (txt "let x = 1;") = [] :=
  ⟨(C10_pattern_scope (fun _ => none) [] 0
      (txt "pub const SYS_READ: u64 = 0;") [] []).1 (txt "SYS_READ") 0 (by decide),
   (C10_pattern_scope (load_canonical_lines (splitlinesPy exCanonicalContent))
      (txt "f.rs") 1 (txt "let x = 1;") [] []).2.2.2.1 (by decide) (by decide)⟩

/-! ## Claim C8 -/

/-- C8 counterexample: with the correct argument count but a file system in
which the first patch target cannot be read, the exception of the patch engine
escapes uncaught (the `uncaught` outcome, carrying the offending path),
rather than mapping to a defined exit code and message. -/
theorem C8_counterexample :
    applyMain 2 (txt "std") [] =
      ApplyOutcome.uncaught (txt "std/sys/pal/mod.rs") := by
  decide

/-- If every remaining patch target is readable, the loop of the engine completes
without raising. -/
theorem runPatches_ok (std_src : Text) :
    ∀ (rem : List (Text × Text × (Text → Text))) (fs : FileSys)
      (log : List PatchStatus),
      (∀ p ∈ rem, (readFS fs (pathJoin std_src p.1)).isSome) →
      ∃ fs2 log2, runPatches fs std_src rem log = Except.ok (fs2, log2)
  | [], fs, log, _ => ⟨fs, log, rfl⟩
  | (rel, marker, fn) :: rest, fs, log, h => by
      have hh := h (rel, marker, fn) (List.mem_cons_self _ _)
      rcases Option.isSome_iff_exists.mp hh with ⟨content, hc⟩
      simp only [runPatches, hc]
      cases hw : (patch_file content marker fn).write with
      | none =>
          exact runPatches_ok std_src rest fs _
            (fun p hp => h p (List.mem_cons_of_mem _ hp))
      | some t =>
          show ∃ fs2 log2,
            runPatches (writeFS fs (pathJoin std_src rel) t) std_src rest
              (log ++ [(patch_file content marker fn).status]) =
              Except.ok (fs2, log2)
          refine runPatches_ok std_src rest _ _ (fun p hp => ?_)
          have hin := h p (List.mem_cons_of_mem _ hp)
          rw [readFS, writeFS]
          rw [readFS] at hin
          cases hq : pathJoin std_src p.1 == pathJoin std_src rel
          · simpa [List.lookup, hq] using hin
          · simp [List.lookup, hq]

/-- C8 (amended): every checker run maps to a defined exit code (0, 1
or 2), and the usage-error path of the patch engine maps to its defined outcome;
the engine raises no exception provided every patch-target file is
readable — a missing target file instead escapes as an uncaught exception
(see the counterexample). -/
theorem C8_failure_paths (argc : Nat) (std_src : Text) (fs : FileSys)
    (h : ∀ p ∈ patches, (readFS fs (pathJoin std_src p.1)).isSome) :
    (∀ (cf : Option Text) (pal : Option (List (Text × Text))),
        checkerExitCode (checkerMain cf pal) = 0 ∨
        checkerExitCode (checkerMain cf pal) = 1 ∨
        checkerExitCode (checkerMain cf pal) = 2)
    ∧ (argc ≠ 2 → applyMain argc std_src fs = ApplyOutcome.usageError)
    ∧ (argc = 2 →
        ∃ fs2 log, applyMain argc std_src fs = ApplyOutcome.ok fs2 log) := by
  refine ⟨?_, ?_, ?_⟩
  · intro cf pal
    cases checkerMain cf pal <;> simp [checkerExitCode]
  · intro h2
    rw [applyMain, if_pos h2]
  · intro h2
    rcases runPatches_ok std_src patches fs [] h with ⟨fs2, log2, hrun⟩
    refine ⟨fs2, log2, ?_⟩
    rw [applyMain, if_neg (by omega), hrun]

/-- Witness for C8: a usage error, a checker run, and a complete engine run
over a file system holding every target. -/
theorem C8_failure_paths_witness :
    (checkerExitCode (checkerMain none none) = 0 ∨
      checkerExitCode (checkerMain none none) = 1 ∨
      checkerExitCode (checkerMain none none) = 2)
    ∧ applyMain 0 (txt "std") exFS = ApplyOutcome.usageError
    ∧ ∃ fs2 log, applyMain 2 (txt "std") exFS = ApplyOutcome.ok fs2 log := by
  have hread : ∀ p ∈ patches, (readFS exFS (pathJoin (txt "std") p.1)).isSome := by
    intro p hp
    simp only [patches, List.mem_cons, List.not_mem_nil, or_false] at hp
    rcases hp with rfl | rfl | rfl | rfl | rfl | rfl | rfl | rfl | rfl <;> decide
  have h0 := C8_failure_paths 0 (txt "std") exFS hread
  have h2 := C8_failure_paths 2 (txt "std") exFS hread
  exact ⟨h0.1 none none, h0.2.1 (by decide), h2.2.2 rfl⟩

end Sabos

